import Mathlib

/-!
A shallow embedding of the configuration-resolution core of cargo-make
(`src/lib/descriptor/mod.rs`): the environment / task / list merge
operations, location stamping, the version gate, the recursive extends-chain
resolver, and the two-pass top-level load, together with theorems checking
the natural-language specification of that module against the code.

External collaborators (file reading, the `toml` decoder, the script engine,
the version comparator, the process-wide environment store) are modelled at
their interfaces: a `FileSystem` carries, per path, the outcome of reading
and decoding that file, and the version comparator is a function parameter.
Types that live in `types.rs` (outside the embedded source file) are
modelled from the spec and marked as such in their doc comments.
-/

namespace CargoMake

mutual
/-- Modelled from the spec: `EnvValue` (`types.rs`) is either a plain text
value or a named group of variables merged as a unit, recursively. -/
inductive EnvValue where
  | Value : String → EnvValue
  | Profile : EnvMap → EnvValue
/-- The environment mapping, mirroring `IndexMap<String, EnvValue>`: an
insertion-ordered sequence of key/value entries with unique keys. -/
inductive EnvMap where
  | nil : EnvMap
  | cons : String → EnvValue → EnvMap → EnvMap
end

/-- `str::starts_with`, on the character lists of the two texts (the
library's own text functions are avoided so that every definition reduces
inside the kernel). -/
def strStartsWith (s pre : String) : Bool :=
  pre.data.isPrefixOf s.data

/-- Split a character list at every occurrence of the separator; empty
pieces are kept, as with `str::split` in the source language. -/
def splitCharList (sep : Char) : List Char → List (List Char)
  | [] => [[]]
  | ch :: rest =>
    let r := splitCharList sep rest
    if ch = sep then [] :: r
    else
      match r with
      | [] => [[ch]]
      | grp :: more => (ch :: grp) :: more

/-- `str::split` on a single separator character. -/
def splitOnChar (sep : Char) (s : String) : List String :=
  (splitCharList sep s.data).map (fun l => String.mk l)

/-- Join path components back with `/`. -/
def joinWithSlash : List String → String
  | [] => ""
  | [p] => p
  | p :: rest => p ++ "/" ++ joinWithSlash rest

/-- `IndexMap::get`: the value of the first entry carrying the key. -/
def EnvMap.lookupVal : EnvMap → String → Option EnvValue
  | .nil, _ => none
  | .cons k2 v rest, k => if k2 = k then some v else rest.lookupVal k

/-- `IndexMap::contains_key`. -/
def EnvMap.containsKey (m : EnvMap) (k : String) : Bool :=
  (m.lookupVal k).isSome

/-- `IndexMap::insert`: an existing key keeps its position and receives the
new value; a new key is appended at the end. -/
def EnvMap.insert : EnvMap → String → EnvValue → EnvMap
  | .nil, k, v => .cons k v .nil
  | .cons k2 v2 rest, k, v =>
    if k2 = k then .cons k2 v rest else .cons k2 v2 (rest.insert k v)

/-- Position of the first entry carrying the key. -/
def EnvMap.idxOf : EnvMap → String → Option Nat
  | .nil, _ => none
  | .cons k2 _ rest, k => if k2 = k then some 0 else (rest.idxOf k).map Nat.succ

/-- Replace the entry at a position. -/
def EnvMap.set : EnvMap → Nat → String → EnvValue → EnvMap
  | .nil, _, _, _ => .nil
  | .cons _ _ rest, 0, k, v => .cons k v rest
  | .cons k2 v2 rest, Nat.succ i, k, v => .cons k2 v2 (rest.set i k v)

/-- The final entry of the map, if any. -/
def EnvMap.getLastEntry : EnvMap → Option (String × EnvValue)
  | .nil => none
  | .cons k v .nil => some (k, v)
  | .cons _ _ (.cons k v rest) => EnvMap.getLastEntry (.cons k v rest)

/-- The map without its final entry. -/
def EnvMap.dropLastEntry : EnvMap → EnvMap
  | .nil => .nil
  | .cons _ _ .nil => .nil
  | .cons k v (.cons k2 v2 rest) => .cons k v (EnvMap.dropLastEntry (.cons k2 v2 rest))

/-- `IndexMap::swap_remove`: the removed slot is filled by the last entry of
the map, which is then popped off — this perturbs insertion order. -/
def EnvMap.swapRemove (m : EnvMap) (k : String) : EnvMap :=
  match m.idxOf k with
  | none => m
  | some i =>
    match m.getLastEntry with
    | none => m
    | some entry => (m.set i entry.1 entry.2).dropLastEntry

/-- The keys of the map, in insertion order. -/
def EnvMap.keys : EnvMap → List String
  | .nil => []
  | .cons k _ rest => k :: rest.keys

/-- Number of entries. -/
def EnvMap.length : EnvMap → Nat
  | .nil => 0
  | .cons _ _ rest => rest.length + 1

/-- Concatenation of two entry sequences. -/
def EnvMap.append : EnvMap → EnvMap → EnvMap
  | .nil, m => m
  | .cons k v rest, m => .cons k v (rest.append m)

/-- Build an `EnvMap` from a list of entries. -/
def EnvMap.ofList : List (String × EnvValue) → EnvMap
  | [] => .nil
  | (k, v) :: rest => .cons k v (EnvMap.ofList rest)

/-- `merge_env` (mod.rs:31): start from a copy of `base`; for each entry of
`extended`, skip keys with the reserved current-task prefix; on a key clash
of two `Profile` values merge the sub-maps recursively, otherwise the
incoming value replaces the existing one — in both clash cases the existing
entry is removed with `swap_remove` and the key re-inserted; new keys are
inserted (appended). -/
def merge_env : EnvMap → EnvMap → EnvMap
  | merged, .nil => merged
  | merged, .cons key value rest =>
    let merged' :=
      if strStartsWith key "CARGO_MAKE_CURRENT_TASK_" then merged
      else
        match merged.lookupVal key, value with
        | some (EnvValue.Profile base_profile_env), EnvValue.Profile extended_profile_env =>
          (merged.swapRemove key).insert key
            (EnvValue.Profile (merge_env base_profile_env extended_profile_env))
        | some _, _ => (merged.swapRemove key).insert key value
        | none, _ => merged.insert key value
    merge_env merged' rest

/-- Generic association-sequence lookup (for `IndexMap`s of tasks and for
the path-keyed file system). -/
def lookupVal {α : Type} : List (String × α) → String → Option α
  | [], _ => none
  | (k2, v) :: rest, k => if k2 = k then some v else lookupVal rest k

/-- Generic `IndexMap::contains_key`. -/
def containsKey {α : Type} (l : List (String × α)) (k : String) : Bool :=
  (lookupVal l k).isSome

/-- Generic `IndexMap::insert`: replace in place or append. -/
def mapInsert {α : Type} : List (String × α) → String → α → List (String × α)
  | [], k, v => [(k, v)]
  | (k2, v2) :: rest, k, v =>
    if k2 = k then (k2, v) :: rest else (k2, v2) :: mapInsert rest k v

/-- `merge_env_files` (mod.rs:79): extended first, then base; no
de-duplication. -/
def merge_env_files {α : Type} (base extended : List α) : List α :=
  extended ++ base

/-- `merge_env_scripts` (mod.rs:83). -/
def merge_env_scripts (base extended : List String) : List String :=
  extended ++ base

/-- Field-wise override choice: a set incoming field wins, otherwise the
base field is kept. -/
def pickOpt {α : Type} : Option α → Option α → Option α
  | some v, _ => some v
  | none, b => b

/-- `Task` (`types.rs`, modelled from the spec): a named unit with an
optional `env` and an unspecified set of further optional execution fields
(three representative ones here); composition is a uniform field-wise
override. -/
structure Task where
  command : Option String := none
  args : Option (List String) := none
  dependencies : Option (List String) := none
  env : Option EnvMap := none

/-- `Task::new`. -/
def Task.new : Task := {}

/-- `Task::extend` (`types.rs`, modelled from the spec): field-wise
override — for each field, a set field of `other` replaces the field of
`base`, otherwise the base value is kept. -/
def Task.extend (base other : Task) : Task :=
  { command := pickOpt other.command base.command,
    args := pickOpt other.args base.args,
    dependencies := pickOpt other.dependencies base.dependencies,
    env := pickOpt other.env base.env }

/-- The per-name body of `merge_tasks` (mod.rs:103-125) for a name present
in both maps: extend an empty task with the base task, then with the
extended task; if `merge_task_env` is set, both tasks declare an `env`, and
the extended env consists of exactly the two reserved location markers, the
merged env reverts to the base task's env. -/
def mergeTaskPair (base_task extended_task : Task) (merge_task_env : Bool) : Task :=
  let merged_task := (Task.new.extend base_task).extend extended_task
  if merge_task_env ∧ base_task.env.isSome ∧ extended_task.env.isSome then
    let extended_env := extended_task.env.getD .nil
    if extended_env.length = 2
        ∧ extended_env.containsKey "CARGO_MAKE_CURRENT_TASK_INITIAL_MAKEFILE"
        ∧ extended_env.containsKey "CARGO_MAKE_CURRENT_TASK_INITIAL_MAKEFILE_DIRECTORY" then
      { merged_task with env := base_task.env }
    else merged_task
  else merged_task

/-- `merge_tasks` (mod.rs:87): copy `base`; for each extended entry, insert
it unchanged when the name is new, otherwise insert the pair merge; an
existing name keeps its position (`IndexMap::insert`). -/
def merge_tasks (base extended : List (String × Task)) (merge_task_env : Bool) :
    List (String × Task) :=
  extended.foldl
    (fun merged kv =>
      let task :=
        match lookupVal base kv.fst with
        | some base_task => mergeTaskPair base_task kv.snd merge_task_env
        | none => kv.snd
      mapInsert merged kv.fst task)
    base

/-- `EnvFileInfo` (`types.rs`, modelled from the spec): a resolved env-file
record `{path, base_directory?}`. -/
structure EnvFileInfo where
  path : String
  base_path : Option String := none
deriving DecidableEq

/-- `EnvFile` (`types.rs`, modelled from the spec): a bare path or a
resolved record. -/
inductive EnvFile where
  | Path : String → EnvFile
  | Info : EnvFileInfo → EnvFile
deriving DecidableEq

/-- `ModifyConfig` (`types.rs`, modelled from the spec): the core-task
modification directive — a namespacing/renaming and a visibility toggle. -/
structure ModifyConfig where
  privateFlag : Option Bool := none
  namespacePrefix : Option String := none

/-- Modelled from the spec: whether the directive has actual effect. -/
def ModifyConfig.is_modifications_defined (m : ModifyConfig) : Bool :=
  m.privateFlag.getD false || m.namespacePrefix.isSome

/-- `ConfigSection` (`types.rs`, modelled from the spec): global settings
with known keys (plus forward-compatible ones, represented by
`init_task`); its merge is override-only, field by field. -/
structure ConfigSection where
  skip_core_tasks : Option Bool := none
  modify_core_tasks : Option ModifyConfig := none
  min_version : Option String := none
  load_script : Option (List String) := none
  init_task : Option String := none

/-- `ConfigSection::new`. -/
def ConfigSection.new : ConfigSection := {}

/-- `ConfigSection::extend` (`types.rs`, modelled from the spec): a present
field of `other` always replaces the field of `base`. -/
def ConfigSection.extend (base other : ConfigSection) : ConfigSection :=
  { skip_core_tasks := pickOpt other.skip_core_tasks base.skip_core_tasks,
    modify_core_tasks := pickOpt other.modify_core_tasks base.modify_core_tasks,
    min_version := pickOpt other.min_version base.min_version,
    load_script := pickOpt other.load_script base.load_script,
    init_task := pickOpt other.init_task base.init_task }

/-- `Extend::Options`. -/
structure ExtendOptions where
  path : String
  optional : Option Bool := none

/-- `Extend` (`types.rs`, modelled from the spec): a single parent path, an
options record, or an ordered list of options records. -/
inductive Extend where
  | Path : String → Extend
  | Options : ExtendOptions → Extend
  | List : List ExtendOptions → Extend

/-- `ExternalConfig` (`types.rs`, modelled from the spec): the decoded form
of one descriptor file; every section is optional. -/
structure ExternalConfig where
  extend : Option Extend := none
  config : Option ConfigSection := none
  env_files : Option (List EnvFile) := none
  env : Option EnvMap := none
  env_scripts : Option (List String) := none
  tasks : Option (List (String × Task)) := none

/-- `ExternalConfig::new`. -/
def ExternalConfig.new : ExternalConfig := {}

/-- `Config` (`types.rs`, modelled from the spec): the fully-composed
result; every section is present. -/
structure Config where
  config : ConfigSection
  env_files : List EnvFile
  env : EnvMap
  env_scripts : List String
  tasks : List (String × Task)

/-- The parent directory of a path string (`Path::parent` rendered back to
text, empty text when there is none): everything before the last `/`. -/
def parentDir (p : String) : String :=
  joinWithSlash (splitOnChar '/' p).dropLast

/-- `Path::join` of a directory and a file name. -/
def joinPath (base file : String) : String := base ++ "/" ++ file

/-- `add_file_location_info` (mod.rs:133): stamp a freshly decoded config
with its origin — bare env-file paths become resolved records carrying the
descriptor's directory (resolved records only receive it when missing), and
every task's env (created if absent) receives the two reserved entries for
the absolute file path and its base directory. -/
def add_file_location_info (external_config : ExternalConfig)
    (file_path_string : String) : ExternalConfig :=
  let base_directory := parentDir file_path_string
  let cfg :=
    match external_config.env_files with
    | some env_files =>
      { external_config with
        env_files := some (env_files.map (fun env_file =>
          match env_file with
          | EnvFile.Path path => EnvFile.Info { path := path, base_path := some base_directory }
          | EnvFile.Info info =>
            if info.base_path.isNone then
              EnvFile.Info { info with base_path := some base_directory }
            else EnvFile.Info info)) }
    | none => external_config
  match cfg.tasks with
  | some tasks =>
    { cfg with
      tasks := some (tasks.foldl (fun tasks_map kv =>
        let env := kv.snd.env.getD .nil
        let env := env.insert "CARGO_MAKE_CURRENT_TASK_INITIAL_MAKEFILE"
          (EnvValue.Value file_path_string)
        let env := env.insert "CARGO_MAKE_CURRENT_TASK_INITIAL_MAKEFILE_DIRECTORY"
          (EnvValue.Value base_directory)
        mapInsert tasks_map kv.fst { kv.snd with env := some env }) []) }
  | none => cfg

/-- `merge_external_configs` (mod.rs:231): merge two resolved configs with
`config` (the first operand) taking precedence over `parent_config`; the
composite has its `extend` cleared and every section present. -/
def merge_external_configs (config parent_config : ExternalConfig) : ExternalConfig :=
  let all_env_files := merge_env_files (parent_config.env_files.getD [])
    (config.env_files.getD [])
  let all_env := merge_env (parent_config.env.getD .nil) (config.env.getD .nil)
  let all_env_scripts := merge_env_scripts (parent_config.env_scripts.getD [])
    (config.env_scripts.getD [])
  let all_tasks := merge_tasks (parent_config.tasks.getD []) (config.tasks.getD []) false
  let config_section := ConfigSection.new
  let config_section :=
    match parent_config.config with
    | some config_section_data => config_section.extend config_section_data
    | none => config_section
  let config_section :=
    match config.config with
    | some config_section_data => config_section.extend config_section_data
    | none => config_section
  { extend := none,
    config := some config_section,
    env_files := some all_env_files,
    env := some all_env,
    env_scripts := some all_env_scripts,
    tasks := some all_tasks }

/-- Generic decoded form of raw descriptor text (`toml::Value`), as far as
the tolerant `min_version` pre-parse of the version gate consumes it. -/
inductive TomlValue where
  | table : List (String × TomlValue) → TomlValue
  | str : String → TomlValue
  | other : TomlValue

/-- `toml::Value::get` on tables. -/
def TomlValue.get : TomlValue → String → Option TomlValue
  | TomlValue.table entries, key => lookupVal entries key
  | _, _ => none

/-- `toml::Value::as_str`. -/
def TomlValue.as_str : TomlValue → Option String
  | TomlValue.str s => some s
  | _ => none

/-- `check_makefile_min_version` (mod.rs:329): a tolerant pre-parse of only
`config.min_version` from the raw text; a failed parse (`none`) is
swallowed and treated as no constraint; if the field is present as text and
the version comparator reports it newer than the running tool, fail with
exactly that minimum version string. -/
def check_makefile_min_version (is_newer_found : String → Bool)
    (parsed : Option TomlValue) : Except String Unit :=
  match parsed with
  | none => Except.ok ()
  | some value =>
    let min_version :=
      ((value.get "config").bind (fun config => config.get "min_version")).bind
        TomlValue.as_str
    match min_version with
    | some min_version =>
      if is_newer_found min_version then Except.error min_version else Except.ok ()
    | none => Except.ok ()

/-- One file visible to the loader: the outcome of the tolerant whole-file
parse used by the version gate, and the outcome of the full typed decode
(`none` means the decoder failed). Reading text and decoding are external
collaborators, so a file is represented directly by their results. -/
structure SourceFile where
  raw : Option TomlValue := none
  decoded : Option ExternalConfig := none

/-- The file system, keyed by joined path text; a path that is absent is a
file that does not exist or is not a regular file. -/
abbrev FileSystem := List (String × SourceFile)

/-- The failure taxonomy of the loader: a required descriptor is absent, a
descriptor fails to decode, or a descriptor demands a newer tool version
(the first two abort the process in the source; the third is the `Err`
channel of `load_external_descriptor`). -/
inductive LoadError where
  | DescriptorMissing : String → LoadError
  | DescriptorMalformed : String → LoadError
  | VersionTooOld : String → LoadError

/-- The fixed collaborators of one run: the file system, the version
comparator `version::is_newer_found`, the workspace side-channel variable
`CARGO_MAKE_WORKSPACE_MAKEFILE`, the decoded bundled stable and beta tiers
(`makefiles::STABLE` / `makefiles::BETA`, whose text lives outside the
embedded source file), and `Config::apply` for the modify directive (its
field semantics are out of scope for the spec, so it is a parameter). -/
structure LoadContext where
  fs : FileSystem
  is_newer_found : String → Bool
  workspace_makefile : Option String := none
  stable_config : Config
  beta_config : Config
  apply_modify : Config → ModifyConfig → Config

mutual
/-- `load_external_descriptor` (mod.rs:351), the chain resolver.  `fuel`
bounds the extends-chain depth (the source recurses without any cycle
detection); `canonicalize_or` is modelled as the identity on the joined
path; publishing `CARGO_MAKE_MAKEFILE_PATH` and running the load-script
hook are external side effects with no bearing on the returned value. -/
def load_external_descriptor (ctx : LoadContext) :
    Nat → String → String → Bool → Bool → Except LoadError ExternalConfig
  | 0, _, _, _, _ => Except.error (LoadError.DescriptorMissing "extends-chain recursion limit")
  | Nat.succ fuel, base_path, file_name, force, _set_env =>
    let file_path := joinPath base_path file_name
    match lookupVal ctx.fs file_path with
    | none =>
      if force then Except.error (LoadError.DescriptorMissing file_path)
      else Except.ok ExternalConfig.new
    | some source =>
      match check_makefile_min_version ctx.is_newer_found source.raw with
      | Except.error min_version => Except.error (LoadError.VersionTooOld min_version)
      | Except.ok _ =>
        match source.decoded with
        | none => Except.error (LoadError.DescriptorMalformed file_path)
        | some decoded =>
          let file_config := add_file_location_info decoded file_path
          match file_config.extend with
          | some extend_struct =>
            let parent_path := parentDir file_path
            match load_descriptor_extended_makefiles ctx fuel parent_path extend_struct with
            | Except.error e => Except.error e
            | Except.ok base_file_config =>
              Except.ok (merge_external_configs file_config base_file_config)
          | none => Except.ok file_config

/-- `load_descriptor_extended_makefiles` (mod.rs:298): resolve one `extend`
declaration — a single path is mandatory, an options record is mandatory
unless marked optional, and an ordered list is folded left-to-right with
later entries taking precedence. -/
def load_descriptor_extended_makefiles (ctx : LoadContext) :
    Nat → String → Extend → Except LoadError ExternalConfig
  | 0, _, _ => Except.error (LoadError.DescriptorMissing "extends-chain recursion limit")
  | Nat.succ fuel, parent_path, extend_struct =>
    match extend_struct with
    | Extend.Path base_file => load_external_descriptor ctx fuel parent_path base_file true false
    | Extend.Options extend_options =>
      load_external_descriptor ctx fuel parent_path extend_options.path
        (!(extend_options.optional.getD false)) false
    | Extend.List extend_list =>
      resolve_extend_list ctx fuel parent_path extend_list ExternalConfig.new

/-- The ordered-list loop of `load_descriptor_extended_makefiles`
(mod.rs:311-320): each entry is loaded as an options record and combined
over the accumulator, the entry winning. -/
def resolve_extend_list (ctx : LoadContext) :
    Nat → String → List ExtendOptions → ExternalConfig → Except LoadError ExternalConfig
  | _, _, [], ordered_list_config => Except.ok ordered_list_config
  | 0, _, _ :: _, _ => Except.error (LoadError.DescriptorMissing "extends-chain recursion limit")
  | Nat.succ fuel, parent_path, entry :: rest, ordered_list_config =>
    match load_external_descriptor ctx fuel parent_path entry.path
        (!(entry.optional.getD false)) false with
    | Except.error e => Except.error e
    | Except.ok entry_config =>
      resolve_extend_list ctx fuel parent_path rest
        (merge_external_configs entry_config ordered_list_config)
end

/-- Modelled from the spec: the bundled non-extended base tier
(`makefiles::BASE`, whose text is outside the embedded source file) is the
empty baseline-shaped accumulator that phase 1 of the orchestrator layers
the external chain over. -/
def baseTierConfig : Config :=
  { config := ConfigSection.new, env_files := [], env := .nil, env_scripts := [], tasks := [] }

/-- `load_internal_descriptors` (mod.rs:416): decode the base tier (the
stable superset tier when `stable`), merge the beta tier's tasks on top
when `experimental`, then apply the optional modify directive.  The
namespace side-channel writes are external side effects. -/
def load_internal_descriptors (ctx : LoadContext) (stable experimental : Bool)
    (modify_config : Option ModifyConfig) : Config :=
  let base_config := if stable then ctx.stable_config else baseTierConfig
  let base_config :=
    if experimental then
      { base_config with
        tasks := merge_tasks base_config.tasks ctx.beta_config.tasks false }
    else base_config
  match modify_config with
  | some props => ctx.apply_modify base_config props
  | none => base_config

/-- `merge_base_config_and_external_config` (mod.rs:476): env is baseline
env merged with external env, then with the mapping built from the CLI
`KEY=VALUE` entries (an entry is kept only when splitting it on `=` yields
exactly two parts); tasks are task-merged with the given late-merge flag;
the config section is the baseline section overridden by the external one;
env-files and env-scripts come verbatim from the external config. -/
def merge_base_config_and_external_config (base_config : Config)
    (external_config : ExternalConfig) (env_map : Option (List String))
    (late_merge : Bool) : Config :=
  let external_tasks := external_config.tasks.getD []
  let base_tasks := base_config.tasks
  let env_files := external_config.env_files.getD []
  let env_scripts := external_config.env_scripts.getD []
  let external_env := external_config.env.getD .nil
  let base_env := base_config.env
  let all_env := merge_env base_env external_env
  let all_env :=
    match env_map with
    | some values =>
      let cli_env := values.foldl (fun cli_env env_pair =>
        match splitOnChar '=' env_pair with
        | [key, value] => cli_env.insert key (EnvValue.Value value)
        | _ => cli_env) EnvMap.nil
      merge_env all_env cli_env
    | none => all_env
  let all_tasks := merge_tasks base_tasks external_tasks late_merge
  let config_section := base_config.config.extend
    (external_config.config.getD ConfigSection.new)
  { config := config_section,
    env_files := env_files,
    env := all_env,
    env_scripts := env_scripts,
    tasks := all_tasks }

/-- The last path component (`PathBuf::file_name` rendered to text). -/
def lastComponent (p : String) : Option String :=
  match (splitOnChar '/' p).getLast? with
  | some s => if s = "" then none else some s
  | none => none

/-- The external-chain part of `load_descriptors` (mod.rs:557-586): resolve
the external chain from the current directory, then, when the workspace
side-channel advertises a workspace makefile, layer it beneath the external
chain (external wins). -/
def resolve_external (ctx : LoadContext) (fuel : Nat) (file_name : String)
    (force : Bool) : Except LoadError ExternalConfig :=
  match load_external_descriptor ctx fuel "." file_name force true with
  | Except.error e => Except.error e
  | Except.ok external_config =>
    match ctx.workspace_makefile with
    | some workspace_makefile =>
      match lastComponent workspace_makefile with
      | some workspace_file_name =>
        match load_external_descriptor ctx fuel (parentDir workspace_makefile)
            workspace_file_name false false with
        | Except.error e => Except.error e
        | Except.ok workspace_config =>
          Except.ok (merge_external_configs external_config workspace_config)
      | none => Except.ok external_config
    | none => Except.ok external_config

/-- `load_descriptors` (mod.rs:547): load the internal tiers, resolve the
external chain with workspace layering, and merge the two (late-merge
disabled). -/
def load_descriptors (ctx : LoadContext) (fuel : Nat) (file_name : String)
    (force : Bool) (env_map : Option (List String)) (stable experimental : Bool)
    (modify_core_tasks : Option ModifyConfig) : Except LoadError Config :=
  let default_config := load_internal_descriptors ctx stable experimental modify_core_tasks
  match resolve_external ctx fuel file_name force with
  | Except.error e => Except.error e
  | Except.ok external_config =>
    Except.ok (merge_base_config_and_external_config default_config external_config
      env_map false)

/-- `load` (mod.rs:602), the top-level orchestrator: a first pass with the
non-extended baseline discovers the directives; when core tasks are
skipped, that pass is final; when a modify directive with actual effect is
present, everything is reloaded with the stable tier and the directive;
otherwise the stable tier is loaded and merged over the phase-1 composite
with the late task-env-revert rule enabled. -/
def load (ctx : LoadContext) (fuel : Nat) (file_name : String) (force : Bool)
    (env_map : Option (List String)) (experimental : Bool) : Except LoadError Config :=
  match load_descriptors ctx fuel file_name force env_map false false none with
  | Except.error e => Except.error e
  | Except.ok config =>
    if !(config.config.skip_core_tasks.getD false) then
      match config.config.modify_core_tasks with
      | some modify_config =>
        if modify_config.is_modifications_defined then
          load_descriptors ctx fuel file_name force env_map true experimental
            (some modify_config)
        else Except.ok config
      | none =>
        let core_config := load_internal_descriptors ctx true experimental none
        let external_config : ExternalConfig :=
          { extend := none,
            config := some config.config,
            env_files := some config.env_files,
            env := some config.env,
            env_scripts := some config.env_scripts,
            tasks := some config.tasks }
        Except.ok (merge_base_config_and_external_config core_config external_config
          env_map true)
    else Except.ok config

/-! ### Concrete contexts used by the witnesses -/

/-- Concrete two-entry ordered list for the C5 witness: the task `x` in
`a.toml` sets `command` and `args`; the one in `b.toml` overrides only
`command`. -/
def c5CfgA : ExternalConfig :=
  { tasks := some [("x", { command := some "a", args := some ["1"] })] }

def c5CfgB : ExternalConfig :=
  { tasks := some [("x", { command := some "b" })] }

def c5Ctx : LoadContext :=
  { fs := [("/w/a.toml", { decoded := some c5CfgA }),
           ("/w/b.toml", { decoded := some c5CfgB })],
    is_newer_found := fun _ => false,
    workspace_makefile := none,
    stable_config := baseTierConfig,
    beta_config := baseTierConfig,
    apply_modify := fun c _ => c }

/-- The stamped form of the two `x` tasks of the C5 witness. -/
def c5StampedA : Task :=
  { command := some "a", args := some ["1"],
    env := some (.cons "CARGO_MAKE_CURRENT_TASK_INITIAL_MAKEFILE" (.Value "/w/a.toml")
      (.cons "CARGO_MAKE_CURRENT_TASK_INITIAL_MAKEFILE_DIRECTORY" (.Value "/w") .nil)) }

def c5StampedB : Task :=
  { command := some "b",
    env := some (.cons "CARGO_MAKE_CURRENT_TASK_INITIAL_MAKEFILE" (.Value "/w/b.toml")
      (.cons "CARGO_MAKE_CURRENT_TASK_INITIAL_MAKEFILE_DIRECTORY" (.Value "/w") .nil)) }

/-- Concrete descriptor for the C6 counterexample: it extends an optional,
absent ancestor and declares nothing else. -/
def c6Cfg : ExternalConfig :=
  { extend := some (Extend.Options { path := "missing.toml", optional := some true }) }

def c6Ctx : LoadContext :=
  { fs := [("./mk.toml", { decoded := some c6Cfg })],
    is_newer_found := fun _ => false,
    workspace_makefile := none,
    stable_config := baseTierConfig,
    beta_config := baseTierConfig,
    apply_modify := fun c _ => c }

/-- Concrete context for the C3 witness: a single descriptor requesting
`skip_core_tasks`, one env var, one task; the stable tier declares a
`CORE` env var and a `core_task` that must not appear in the result. -/
def c3Cfg : ExternalConfig :=
  { config := some { skip_core_tasks := some true },
    env := some (.cons "FOO" (.Value "bar") .nil),
    tasks := some [("t", { command := some "echo" })] }

def c3Ctx : LoadContext :=
  { fs := [("./mk.toml", { decoded := some c3Cfg })],
    is_newer_found := fun _ => false,
    workspace_makefile := none,
    stable_config :=
      { config := ConfigSection.new, env_files := [],
        env := .cons "CORE" (.Value "1") .nil, env_scripts := [],
        tasks := [("core_task", { command := some "core" })] },
    beta_config := baseTierConfig,
    apply_modify := fun c _ => c }

/-- The stamped composite the C3 witness expects: the descriptor's own
content only — the stable tier's `CORE` env var and `core_task` are
absent. -/
def c3Stamped : ExternalConfig :=
  { config := some { skip_core_tasks := some true },
    env := some (.cons "FOO" (.Value "bar") .nil),
    tasks := some [("t",
      { command := some "echo",
        env := some (.cons "CARGO_MAKE_CURRENT_TASK_INITIAL_MAKEFILE" (.Value "./mk.toml")
          (.cons "CARGO_MAKE_CURRENT_TASK_INITIAL_MAKEFILE_DIRECTORY"
            (.Value ".") .nil)) })] }

/-! ### Supporting lemmas about the map primitives -/

theorem pickOpt_none_right {α : Type} (o : Option α) : pickOpt o none = o := by
  cases o <;> rfl

theorem task_extend_of_new (t : Task) : Task.new.extend t = t := by
  simp [Task.extend, Task.new, pickOpt_none_right]

theorem config_section_extend_of_new (s : ConfigSection) : ConfigSection.new.extend s = s := by
  simp [ConfigSection.extend, ConfigSection.new, pickOpt_none_right]

theorem lookupVal_mapInsert_self {α : Type} (l : List (String × α)) (k : String) (v : α) :
    lookupVal (mapInsert l k v) k = some v := by
  induction l with
  | nil => simp [mapInsert, lookupVal]
  | cons hd tl ih =>
    obtain ⟨k2, v2⟩ := hd
    by_cases h : k2 = k
    · simp [mapInsert, h, lookupVal]
    · simp [mapInsert, h, lookupVal, ih]

theorem lookupVal_mapInsert_ne {α : Type} (l : List (String × α)) {k2 k : String} (v : α)
    (h : k2 ≠ k) : lookupVal (mapInsert l k2 v) k = lookupVal l k := by
  induction l with
  | nil => simp [mapInsert, lookupVal, h]
  | cons hd tl ih =>
    obtain ⟨k3, v3⟩ := hd
    by_cases h3 : k3 = k2
    · subst h3
      simp [mapInsert, lookupVal, h]
    · simp [mapInsert, h3, lookupVal, ih]

theorem containsKey_mapInsert_ne {α : Type} (l : List (String × α)) {k2 k : String} (v : α)
    (h : k2 ≠ k) : containsKey (mapInsert l k2 v) k = containsKey l k := by
  simp [containsKey, lookupVal_mapInsert_ne l v h]

theorem mapInsert_not_contains {α : Type} {l : List (String × α)} {k : String} (v : α)
    (h : containsKey l k = false) : mapInsert l k v = l ++ [(k, v)] := by
  induction l with
  | nil => simp [mapInsert]
  | cons hd tl ih =>
    obtain ⟨k2, v2⟩ := hd
    simp only [containsKey, lookupVal] at h
    by_cases h2 : k2 = k
    · simp [h2] at h
    · rw [if_neg h2] at h
      simp only [containsKey] at ih
      simp [mapInsert, h2, ih h]

theorem lookupVal_list_eq_none_of_not_mem {α : Type} {l : List (String × α)} {k : String}
    (h : k ∉ l.map Prod.fst) : lookupVal l k = none := by
  induction l with
  | nil => rfl
  | cons hd tl ih =>
    obtain ⟨k2, v2⟩ := hd
    simp only [List.map_cons, List.mem_cons] at h
    push_neg at h
    simp only [lookupVal]
    rw [if_neg (Ne.symm h.1)]
    exact ih h.2

theorem containsKey_eq_false_of_not_mem {α : Type} {l : List (String × α)} {k : String}
    (h : k ∉ l.map Prod.fst) : containsKey l k = false := by
  simp [containsKey, lookupVal_list_eq_none_of_not_mem h]

theorem map_fst_mapInsert_contains {α : Type} {l : List (String × α)} {k : String} (v : α)
    (h : containsKey l k = true) : (mapInsert l k v).map Prod.fst = l.map Prod.fst := by
  induction l with
  | nil => simp [containsKey, lookupVal] at h
  | cons hd tl ih =>
    obtain ⟨k2, v2⟩ := hd
    by_cases h2 : k2 = k
    · simp [mapInsert, h2]
    · simp only [containsKey, lookupVal, h2, if_neg h2] at h
      simp only [containsKey] at ih
      simp [mapInsert, h2, ih h]

theorem map_fst_mapInsert_new {α : Type} {l : List (String × α)} {k : String} (v : α)
    (h : containsKey l k = false) :
    (mapInsert l k v).map Prod.fst = l.map Prod.fst ++ [k] := by
  rw [mapInsert_not_contains v h]
  simp

/-! ### Supporting lemmas about `EnvMap` -/

/-- Single-motive structural induction for `EnvMap` (the mutual recursor's
value motive is trivial: none of the map lemmas descend into values). -/
theorem EnvMap.inductionOn {P : EnvMap → Prop} (m : EnvMap) (hnil : P EnvMap.nil)
    (hcons : ∀ k v rest, P rest → P (EnvMap.cons k v rest)) : P m :=
  @EnvMap.rec (fun _ => True) P (fun _ => trivial) (fun _ _ => trivial) hnil
    (fun k v rest _ ih => hcons k v rest ih) m

theorem EnvMap.lookupVal_insert_self (m : EnvMap) (k : String) (v : EnvValue) :
    (m.insert k v).lookupVal k = some v := by
  induction m using EnvMap.inductionOn with
  | hnil => simp [EnvMap.insert, EnvMap.lookupVal]
  | hcons k2 v2 rest ih =>
    by_cases h : k2 = k
    · simp [EnvMap.insert, h, EnvMap.lookupVal]
    · simp [EnvMap.insert, h, EnvMap.lookupVal, ih]

theorem EnvMap.lookupVal_insert_ne (m : EnvMap) {k2 k : String} (v : EnvValue)
    (h : k2 ≠ k) : (m.insert k2 v).lookupVal k = m.lookupVal k := by
  induction m using EnvMap.inductionOn with
  | hnil => simp [EnvMap.insert, EnvMap.lookupVal, h]
  | hcons k3 v3 rest ih =>
    by_cases h3 : k3 = k2
    · subst h3
      simp [EnvMap.insert, EnvMap.lookupVal, h]
    · simp [EnvMap.insert, h3, EnvMap.lookupVal, ih]

theorem EnvMap.insert_not_contains {m : EnvMap} {k : String} (v : EnvValue)
    (h : m.containsKey k = false) : m.insert k v = m.append (.cons k v .nil) := by
  induction m using EnvMap.inductionOn with
  | hnil => simp [EnvMap.insert, EnvMap.append]
  | hcons k2 v2 rest ih =>
    simp only [EnvMap.containsKey, EnvMap.lookupVal] at h
    by_cases h2 : k2 = k
    · simp [h2] at h
    · rw [if_neg h2] at h
      simp only [EnvMap.containsKey] at ih
      simp [EnvMap.insert, h2, EnvMap.append, ih h]

theorem EnvMap.lookupVal_eq_none_of_not_mem {m : EnvMap} {k : String}
    (h : k ∉ m.keys) : m.lookupVal k = none := by
  induction m using EnvMap.inductionOn with
  | hnil => rfl
  | hcons k2 v2 rest ih =>
    simp only [EnvMap.keys, List.mem_cons] at h
    push_neg at h
    simp only [EnvMap.lookupVal]
    rw [if_neg (Ne.symm h.1)]
    exact ih h.2

theorem EnvMap.lookupVal_append (m1 m2 : EnvMap) (k : String) :
    (m1.append m2).lookupVal k
      = match m1.lookupVal k with
        | some v => some v
        | none => m2.lookupVal k := by
  induction m1 using EnvMap.inductionOn with
  | hnil => simp [EnvMap.append, EnvMap.lookupVal]
  | hcons k2 v2 rest ih =>
    by_cases h : k2 = k
    · simp [EnvMap.append, EnvMap.lookupVal, h]
    · simp [EnvMap.append, EnvMap.lookupVal, h, ih]

theorem EnvMap.append_assoc (m1 m2 m3 : EnvMap) :
    (m1.append m2).append m3 = m1.append (m2.append m3) := by
  induction m1 using EnvMap.inductionOn with
  | hnil => simp [EnvMap.append]
  | hcons k v rest ih => simp [EnvMap.append, ih]

theorem EnvMap.keys_append (m1 m2 : EnvMap) :
    (m1.append m2).keys = m1.keys ++ m2.keys := by
  induction m1 using EnvMap.inductionOn with
  | hnil => simp [EnvMap.append, EnvMap.keys]
  | hcons k v rest ih => simp [EnvMap.append, EnvMap.keys, ih]

theorem EnvMap.append_nil (m : EnvMap) : m.append .nil = m := by
  induction m using EnvMap.inductionOn with
  | hnil => rfl
  | hcons k v rest ih => simp [EnvMap.append, ih]

theorem EnvMap.idxOf_append_not_mem (m1 : EnvMap) {k : String} (bv : EnvValue)
    (rest : EnvMap) (h : k ∉ m1.keys) :
    (m1.append (.cons k bv rest)).idxOf k = some m1.keys.length := by
  induction m1 using EnvMap.inductionOn with
  | hnil => simp [EnvMap.append, EnvMap.idxOf, EnvMap.keys]
  | hcons k2 v2 m ih =>
    simp only [EnvMap.keys, List.mem_cons] at h
    push_neg at h
    simp only [EnvMap.append, EnvMap.idxOf]
    rw [if_neg (Ne.symm h.1)]
    simp [ih h.2, EnvMap.keys]

theorem EnvMap.getLastEntry_cons_append_single (m : EnvMap) (k : String) (v : EnvValue) :
    ∀ a : String, ∀ b : EnvValue,
      (EnvMap.cons a b (m.append (.cons k v .nil))).getLastEntry = some (k, v) := by
  induction m using EnvMap.inductionOn with
  | hnil => intro a b; rfl
  | hcons k2 v2 rest ih =>
    intro a b
    simp only [EnvMap.append]
    exact ih k2 v2

theorem EnvMap.getLastEntry_append_single (m : EnvMap) (k : String) (v : EnvValue) :
    (m.append (.cons k v .nil)).getLastEntry = some (k, v) := by
  induction m using EnvMap.inductionOn with
  | hnil => rfl
  | hcons a b rest _ =>
    simp only [EnvMap.append]
    exact EnvMap.getLastEntry_cons_append_single rest k v a b

theorem EnvMap.dropLastEntry_cons_append_single (m : EnvMap) (k : String) (v : EnvValue) :
    ∀ a : String, ∀ b : EnvValue,
      (EnvMap.cons a b (m.append (.cons k v .nil))).dropLastEntry = EnvMap.cons a b m := by
  induction m using EnvMap.inductionOn with
  | hnil => intro a b; rfl
  | hcons k2 v2 rest ih =>
    intro a b
    simp only [EnvMap.append]
    have step :
        (EnvMap.cons a b (EnvMap.cons k2 v2 (rest.append (.cons k v .nil)))).dropLastEntry
          = EnvMap.cons a b
              ((EnvMap.cons k2 v2 (rest.append (.cons k v .nil))).dropLastEntry) := rfl
    rw [step, ih k2 v2]

theorem EnvMap.dropLastEntry_append_single (m : EnvMap) (k : String) (v : EnvValue) :
    (m.append (.cons k v .nil)).dropLastEntry = m := by
  induction m using EnvMap.inductionOn with
  | hnil => rfl
  | hcons a b rest _ =>
    simp only [EnvMap.append]
    exact EnvMap.dropLastEntry_cons_append_single rest k v a b

theorem EnvMap.set_append_keys_length (m1 : EnvMap) (rest : EnvMap) (k k2 : String)
    (v v2 : EnvValue) :
    (m1.append (.cons k v rest)).set m1.keys.length k2 v2 = m1.append (.cons k2 v2 rest) := by
  induction m1 using EnvMap.inductionOn with
  | hnil => rfl
  | hcons k3 v3 m ih =>
    simp only [EnvMap.append, EnvMap.keys, List.length_cons, EnvMap.set]
    rw [ih]

theorem EnvMap.swapRemove_shape (m1 m2 : EnvMap) {k : String} (lk : String)
    (bv lv : EnvValue) (h : k ∉ m1.keys) :
    (m1.append (.cons k bv (m2.append (.cons lk lv .nil)))).swapRemove k
      = m1.append (.cons lk lv m2) := by
  have hassoc :
      m1.append (.cons k bv (m2.append (.cons lk lv .nil)))
        = (m1.append (.cons k bv m2)).append (.cons lk lv .nil) := by
    rw [EnvMap.append_assoc]
    simp [EnvMap.append]
  have hlast :
      (m1.append (.cons k bv (m2.append (.cons lk lv .nil)))).getLastEntry
        = some (lk, lv) := by
    rw [hassoc]
    exact EnvMap.getLastEntry_append_single _ lk lv
  have hidx :
      (m1.append (.cons k bv (m2.append (.cons lk lv .nil)))).idxOf k
        = some m1.keys.length :=
    EnvMap.idxOf_append_not_mem m1 bv _ h
  have hset :
      (m1.append (.cons k bv (m2.append (.cons lk lv .nil)))).set m1.keys.length lk lv
        = m1.append (.cons lk lv (m2.append (.cons lk lv .nil))) :=
    EnvMap.set_append_keys_length m1 _ k lk bv lv
  have hassoc2 :
      m1.append (.cons lk lv (m2.append (.cons lk lv .nil)))
        = (m1.append (.cons lk lv m2)).append (.cons lk lv .nil) := by
    rw [EnvMap.append_assoc]
    simp [EnvMap.append]
  have hfinal :
      ((m1.append (.cons k bv (m2.append (.cons lk lv .nil)))).set m1.keys.length
        lk lv).dropLastEntry = m1.append (.cons lk lv m2) := by
    rw [hset, hassoc2]
    exact EnvMap.dropLastEntry_append_single _ lk lv
  rw [EnvMap.swapRemove, hidx, hlast]
  exact hfinal

/-! ### Supporting lemmas about `merge_env` -/

theorem EnvMap.lookupVal_of_containsKey_false {m : EnvMap} {k : String}
    (h : m.containsKey k = false) : m.lookupVal k = none := by
  unfold EnvMap.containsKey at h
  cases hc : m.lookupVal k with
  | none => rfl
  | some v => rw [hc] at h; simp at h

theorem lookupVal_list_of_containsKey_false {α : Type} {l : List (String × α)} {k : String}
    (h : containsKey l k = false) : lookupVal l k = none := by
  unfold containsKey at h
  cases hc : lookupVal l k with
  | none => rfl
  | some v => rw [hc] at h; simp at h

theorem merge_env_nil_extended (m : EnvMap) : merge_env m .nil = m := rfl

theorem merge_env_disjoint (ext : EnvMap) : ∀ acc : EnvMap,
    (∀ k ∈ ext.keys, acc.containsKey k = false
      ∧ strStartsWith k "CARGO_MAKE_CURRENT_TASK_" = false) →
    ext.keys.Nodup →
    merge_env acc ext = acc.append ext := by
  induction ext using EnvMap.inductionOn with
  | hnil => intro acc _ _; rw [merge_env_nil_extended, EnvMap.append_nil]
  | hcons k v rest ih =>
    intro acc hks hnd
    have hk := hks k (by simp [EnvMap.keys])
    have hlook : acc.lookupVal k = none := EnvMap.lookupVal_of_containsKey_false hk.1
    have hstep : merge_env acc (.cons k v rest) = merge_env (acc.insert k v) rest := by
      simp [merge_env, hk.2, hlook]
    rw [hstep, EnvMap.insert_not_contains v hk.1]
    simp only [EnvMap.keys, List.nodup_cons] at hnd
    rw [ih (acc.append (.cons k v .nil)) ?_ hnd.2]
    · rw [EnvMap.append_assoc]
      simp [EnvMap.append]
    · intro k2 hk2
      have hk2full := hks k2 (by simp [EnvMap.keys, hk2])
      refine ⟨?_, hk2full.2⟩
      have hne : k ≠ k2 := fun hkk => hnd.1 (hkk ▸ hk2)
      simp only [EnvMap.containsKey, EnvMap.lookupVal_append]
      rw [EnvMap.lookupVal_of_containsKey_false hk2full.1]
      simp [EnvMap.lookupVal, hne]

theorem merge_env_lookup_single_value (m : EnvMap) (k s : String)
    (hres : strStartsWith k "CARGO_MAKE_CURRENT_TASK_" = false) :
    (merge_env m (.cons k (.Value s) .nil)).lookupVal k = some (.Value s) := by
  cases hc : m.lookupVal k with
  | none =>
    have hstep : merge_env m (.cons k (.Value s) .nil) = m.insert k (.Value s) := by
      simp [merge_env, hres, hc]
    rw [hstep]
    exact EnvMap.lookupVal_insert_self m k (.Value s)
  | some bv =>
    cases bv with
    | Value s2 =>
      have hstep : merge_env m (.cons k (.Value s) .nil)
          = (m.swapRemove k).insert k (.Value s) := by
        simp [merge_env, hres, hc]
      rw [hstep]
      exact EnvMap.lookupVal_insert_self _ k (.Value s)
    | Profile pm =>
      have hstep : merge_env m (.cons k (.Value s) .nil)
          = (m.swapRemove k).insert k (.Value s) := by
        simp [merge_env, hres, hc]
      rw [hstep]
      exact EnvMap.lookupVal_insert_self _ k (.Value s)

/-! ### Supporting lemmas about the `merge_tasks` fold -/

theorem lookupVal_list_append {α : Type} (l1 l2 : List (String × α)) (k : String) :
    lookupVal (l1 ++ l2) k
      = match lookupVal l1 k with
        | some v => some v
        | none => lookupVal l2 k := by
  induction l1 with
  | nil => simp [lookupVal]
  | cons hd tl ih =>
    obtain ⟨k2, v2⟩ := hd
    by_cases h : k2 = k
    · simp [lookupVal, h]
    · simp [lookupVal, h, ih]

theorem containsKey_append {α : Type} (l1 l2 : List (String × α)) (k : String) :
    containsKey (l1 ++ l2) k = (containsKey l1 k || containsKey l2 k) := by
  simp only [containsKey, lookupVal_list_append]
  cases lookupVal l1 k <;> simp

theorem containsKey_mapInsert_self {α : Type} (l : List (String × α)) (k : String) (v : α) :
    containsKey (mapInsert l k v) k = true := by
  simp [containsKey, lookupVal_mapInsert_self]

theorem mem_mapInsert {α : Type} {l : List (String × α)} {k : String} {v : α}
    {x : String × α} (hx : x ∈ mapInsert l k v) : x ∈ l ∨ x = (k, v) := by
  induction l with
  | nil =>
    right
    simpa [mapInsert] using hx
  | cons hd tl ih =>
    obtain ⟨k2, v2⟩ := hd
    by_cases h : k2 = k
    · subst h
      rw [show mapInsert ((k2, v2) :: tl) k2 v = (k2, v) :: tl from by
        simp [mapInsert]] at hx
      rcases List.mem_cons.mp hx with he | hm
      · right; exact he
      · left; exact List.mem_cons_of_mem _ hm
    · rw [show mapInsert ((k2, v2) :: tl) k v = (k2, v2) :: mapInsert tl k v from by
        simp [mapInsert, h]] at hx
      rcases List.mem_cons.mp hx with he | hm
      · left; rw [he]; exact List.mem_cons_self _ _
      · rcases ih hm with h1 | h2
        · left; exact List.mem_cons_of_mem _ h1
        · right; exact h2

theorem mem_foldl_mapInsert {α : Type} (f : String × α → α) (l : List (String × α)) :
    ∀ acc (x : String × α), x ∈ l.foldl (fun m kv => mapInsert m kv.1 (f kv)) acc →
      x ∈ acc ∨ ∃ kv ∈ l, x = (kv.1, f kv) := by
  induction l with
  | nil => intro acc x hx; left; exact hx
  | cons hd tl ih =>
    intro acc x hx
    simp only [List.foldl_cons] at hx
    rcases ih (mapInsert acc hd.1 (f hd)) x hx with hacc | ⟨kv, hkv, hx2⟩
    · rcases mem_mapInsert hacc with hm | he
      · left; exact hm
      · right; exact ⟨hd, by simp, he⟩
    · right; exact ⟨kv, by simp [hkv], hx2⟩

theorem foldl_mapInsert_lookup_not_mem {α : Type} (f : String × α → α)
    (l : List (String × α)) :
    ∀ acc (k : String), k ∉ l.map Prod.fst →
      lookupVal (l.foldl (fun m kv => mapInsert m kv.1 (f kv)) acc) k
        = lookupVal acc k := by
  induction l with
  | nil => intro acc k _; rfl
  | cons hd tl ih =>
    intro acc k hk
    simp only [List.map_cons, List.mem_cons] at hk
    push_neg at hk
    simp only [List.foldl_cons]
    rw [ih _ k hk.2]
    exact lookupVal_mapInsert_ne acc (f hd) (Ne.symm hk.1)

theorem foldl_mapInsert_lookup {α : Type} (f : String × α → α) (l : List (String × α)) :
    ∀ acc (k : String) (v : α), (l.map Prod.fst).Nodup → lookupVal l k = some v →
      lookupVal (l.foldl (fun m kv => mapInsert m kv.1 (f kv)) acc) k
        = some (f (k, v)) := by
  induction l with
  | nil => intro acc k v _ hl; simp [lookupVal] at hl
  | cons hd tl ih =>
    intro acc k v hnd hl
    obtain ⟨k1, v1⟩ := hd
    simp only [List.map_cons, List.nodup_cons] at hnd
    simp only [List.foldl_cons]
    by_cases h1 : k1 = k
    · subst h1
      simp [lookupVal] at hl
      subst hl
      rw [foldl_mapInsert_lookup_not_mem f tl _ k1 hnd.1]
      exact lookupVal_mapInsert_self acc k1 (f (k1, v1))
    · rw [show lookupVal ((k1, v1) :: tl) k = lookupVal tl k from by
        simp [lookupVal, h1]] at hl
      exact ih _ k v hnd.2 hl

theorem foldl_mapInsert_disjoint {α : Type} (f : String × α → α) (l : List (String × α)) :
    ∀ acc, (∀ k ∈ l.map Prod.fst, containsKey acc k = false) → (l.map Prod.fst).Nodup →
      l.foldl (fun m kv => mapInsert m kv.1 (f kv)) acc
        = acc ++ l.map (fun kv => (kv.1, f kv)) := by
  induction l with
  | nil => intro acc _ _; simp
  | cons hd tl ih =>
    intro acc hks hnd
    obtain ⟨k1, v1⟩ := hd
    simp only [List.map_cons, List.nodup_cons] at hnd
    have hk1 : containsKey acc k1 = false := hks k1 (by simp)
    simp only [List.foldl_cons]
    rw [mapInsert_not_contains (f (k1, v1)) hk1]
    rw [ih _ ?_ hnd.2]
    · simp
    · intro k hk
      have hne : k1 ≠ k := fun he => hnd.1 (he ▸ hk)
      rw [containsKey_append]
      have h2 : containsKey [(k1, f (k1, v1))] k = false := by
        simp [containsKey, lookupVal, hne]
      rw [hks k (by simp [hk]), h2]
      rfl

theorem foldl_mapInsert_map_fst {α : Type} (f : String × α → α) (l : List (String × α)) :
    ∀ acc, (l.map Prod.fst).Nodup →
      (l.foldl (fun m kv => mapInsert m kv.1 (f kv)) acc).map Prod.fst
        = acc.map Prod.fst ++ (l.map Prod.fst).filter (fun k => !(containsKey acc k)) := by
  induction l with
  | nil => intro acc _; simp
  | cons hd tl ih =>
    intro acc hnd
    obtain ⟨k1, v1⟩ := hd
    simp only [List.map_cons, List.nodup_cons] at hnd
    simp only [List.foldl_cons]
    rw [ih _ hnd.2]
    by_cases hc : containsKey acc k1
    · rw [map_fst_mapInsert_contains (f (k1, v1)) hc]
      have hfilter : (tl.map Prod.fst).filter
            (fun k => !(containsKey (mapInsert acc k1 (f (k1, v1))) k))
          = (tl.map Prod.fst).filter (fun k => !(containsKey acc k)) := by
        apply List.filter_congr
        intro k hk
        by_cases he : k1 = k
        · subst he
          rw [containsKey_mapInsert_self, hc]
        · rw [containsKey_mapInsert_ne acc (f (k1, v1)) he]
      rw [hfilter]
      simp [List.filter_cons, hc]
    · rw [map_fst_mapInsert_new (f (k1, v1)) (by simpa using hc)]
      have hfilter : (tl.map Prod.fst).filter
            (fun k => !(containsKey (mapInsert acc k1 (f (k1, v1))) k))
          = (tl.map Prod.fst).filter (fun k => !(containsKey acc k)) := by
        apply List.filter_congr
        intro k hk
        have hne : k1 ≠ k := fun he => hnd.1 (he ▸ hk)
        rw [containsKey_mapInsert_ne acc (f (k1, v1)) hne]
      rw [hfilter]
      have : containsKey acc k1 = false := by simpa using hc
      simp [List.filter_cons, this]

theorem merge_tasks_eq_foldl (base ext : List (String × Task)) (flag : Bool) :
    merge_tasks base ext flag
      = ext.foldl (fun m kv => mapInsert m kv.1
          ((fun kv2 : String × Task =>
            match lookupVal base kv2.fst with
            | some base_task => mergeTaskPair base_task kv2.snd flag
            | none => kv2.snd) kv)) base := rfl

theorem lookupVal_merge_tasks (base ext : List (String × Task)) (flag : Bool)
    {k : String} {et : Task} (hnd : (ext.map Prod.fst).Nodup)
    (hl : lookupVal ext k = some et) :
    lookupVal (merge_tasks base ext flag) k
      = some (match lookupVal base k with
              | some base_task => mergeTaskPair base_task et flag
              | none => et) := by
  rw [merge_tasks_eq_foldl]
  exact foldl_mapInsert_lookup _ ext base k et hnd hl

theorem merge_tasks_nil_base (ext : List (String × Task)) (flag : Bool)
    (hnd : (ext.map Prod.fst).Nodup) : merge_tasks [] ext flag = ext := by
  rw [merge_tasks_eq_foldl]
  rw [foldl_mapInsert_disjoint _ ext [] (fun k _ => rfl) hnd]
  simp [lookupVal]

/-! ### Claim C9: shape of the Config Combinator result -/

/-- C9: for every pair of input configs, the Config Combinator's composite
has `extend` cleared and all five content sections present (empty rather
than absent), so combining an untouched descriptor that declares an
`extend` with an empty ancestor never returns that descriptor bit-for-bit. -/
theorem c9_config_combinator_shape :
    (∀ config parent_config : ExternalConfig,
      (merge_external_configs config parent_config).extend = none
        ∧ (merge_external_configs config parent_config).config.isSome = true
        ∧ (merge_external_configs config parent_config).env_files.isSome = true
        ∧ (merge_external_configs config parent_config).env.isSome = true
        ∧ (merge_external_configs config parent_config).env_scripts.isSome = true
        ∧ (merge_external_configs config parent_config).tasks.isSome = true)
    ∧ (∀ config : ExternalConfig, config.extend.isSome = true →
        merge_external_configs config ExternalConfig.new ≠ config) := by
  constructor
  · intro c p
    exact ⟨rfl, rfl, rfl, rfl, rfl, rfl⟩
  · intro c h he
    have hnone : c.extend = none := by rw [← he]; rfl
    rw [hnone] at h
    simp at h

/-- Witness for C9 at concrete inputs. -/
theorem c9_config_combinator_shape_witness :
    (merge_external_configs ExternalConfig.new ExternalConfig.new).extend = none
      ∧ merge_external_configs { extend := some (Extend.Path "base.toml") }
          ExternalConfig.new ≠ { extend := some (Extend.Path "base.toml") } :=
  ⟨(c9_config_combinator_shape.1 ExternalConfig.new ExternalConfig.new).1,
    c9_config_combinator_shape.2 { extend := some (Extend.Path "base.toml") } rfl⟩

/-! ### Claim C10: Task Merge preserves positions -/

/-- C10: Task Merge keeps every name present in `base` at its original
position (even when its definition is overridden), and appends names that
occur only in `extended` at the end, in `extended`'s iteration order. -/
theorem c10_task_merge_order (base ext : List (String × Task)) (flag : Bool)
    (hnd : (ext.map Prod.fst).Nodup) :
    (merge_tasks base ext flag).map Prod.fst
      = base.map Prod.fst
        ++ (ext.map Prod.fst).filter (fun k => !(containsKey base k)) := by
  rw [merge_tasks_eq_foldl]
  exact foldl_mapInsert_map_fst _ ext base hnd

/-- Witness for C10: overriding task `a` keeps it first; new task `c`
appends at the end. -/
theorem c10_task_merge_order_witness :
    (merge_tasks [("a", { command := some "1" }), ("b", { command := some "2" })]
        [("a", { command := some "9" }), ("c", { command := some "3" })] true).map Prod.fst
      = ["a", "b", "c"] := by
  rw [c10_task_merge_order
    [("a", { command := some "1" }), ("b", { command := some "2" })]
    [("a", { command := some "9" }), ("c", { command := some "3" })] true (by decide)]
  decide

/-! ### Claim C4: marker-only env reversion in Task Merge -/

/-- C4: when the revert flag is set, both same-named tasks declare a
non-empty env, and the extended env is exactly the two reserved location
markers, the merged task's env reverts to the base task's env; with the
flag unset the merged env is the extended (marker-only) env; the field-wise
override applies in both cases. -/
theorem c4_marker_reversion (name : String) (base_task extended_task : Task)
    (benv eenv : EnvMap)
    (hb : base_task.env = some benv) (hbne : benv ≠ .nil)
    (he : extended_task.env = some eenv)
    (hlen : eenv.length = 2)
    (h1 : eenv.containsKey "CARGO_MAKE_CURRENT_TASK_INITIAL_MAKEFILE" = true)
    (h2 : eenv.containsKey "CARGO_MAKE_CURRENT_TASK_INITIAL_MAKEFILE_DIRECTORY" = true) :
    lookupVal (merge_tasks [(name, base_task)] [(name, extended_task)] true) name
        = some { base_task.extend extended_task with env := some benv }
      ∧ lookupVal (merge_tasks [(name, base_task)] [(name, extended_task)] false) name
        = some (base_task.extend extended_task)
      ∧ (base_task.extend extended_task).env = some eenv := by
  have hself : ∀ flag : Bool,
      lookupVal (merge_tasks [(name, base_task)] [(name, extended_task)] flag) name
        = some (mergeTaskPair base_task extended_task flag) := by
    intro flag
    have hl : lookupVal [(name, extended_task)] name = some extended_task := by
      simp [lookupVal]
    have := lookupVal_merge_tasks [(name, base_task)] [(name, extended_task)] flag
      (by simp) hl
    rw [this]
    simp [lookupVal]
  have hmerged : (Task.new.extend base_task).extend extended_task
      = base_task.extend extended_task := by rw [task_extend_of_new]
  have hrevert : mergeTaskPair base_task extended_task true
      = { base_task.extend extended_task with env := some benv } := by
    unfold mergeTaskPair
    rw [hb, he, hmerged]
    simp [hlen, h1, h2]
  have hplain : mergeTaskPair base_task extended_task false
      = base_task.extend extended_task := by
    unfold mergeTaskPair
    rw [hmerged]
    simp
  refine ⟨?_, ?_, ?_⟩
  · rw [hself true, hrevert]
  · rw [hself false, hplain]
  · simp [Task.extend, he, pickOpt]

/-- Witness for C4 at concrete tasks. -/
theorem c4_marker_reversion_witness :
    lookupVal (merge_tasks
        [("t", { command := some "base", env := some (.cons "FOO" (.Value "1") .nil) })]
        [("t", { env := some (.cons "CARGO_MAKE_CURRENT_TASK_INITIAL_MAKEFILE"
            (.Value "/w/mk.toml")
            (.cons "CARGO_MAKE_CURRENT_TASK_INITIAL_MAKEFILE_DIRECTORY"
              (.Value "/w") .nil)) })] true) "t"
      = some { command := some "base", env := some (.cons "FOO" (.Value "1") .nil) } := by
  have h := c4_marker_reversion "t"
    { command := some "base", env := some (.cons "FOO" (.Value "1") .nil) }
    { env := some (.cons "CARGO_MAKE_CURRENT_TASK_INITIAL_MAKEFILE"
        (.Value "/w/mk.toml")
        (.cons "CARGO_MAKE_CURRENT_TASK_INITIAL_MAKEFILE_DIRECTORY"
          (.Value "/w") .nil)) }
    (.cons "FOO" (.Value "1") .nil)
    (.cons "CARGO_MAKE_CURRENT_TASK_INITIAL_MAKEFILE" (.Value "/w/mk.toml")
      (.cons "CARGO_MAKE_CURRENT_TASK_INITIAL_MAKEFILE_DIRECTORY" (.Value "/w") .nil))
    rfl (by intro hcontra; cases hcontra) rfl (by decide) (by decide) (by decide)
  exact h.1

/-! ### Claim C1: CLI override splitting and precedence -/

/-- Counterexample to C1 as stated: the CLI entry `A=B=C` is split on every
`=` (three parts), so it is discarded rather than binding `A` to `B=C`; the
baseline value of `A` survives. -/
theorem c1_counterexample :
    ((merge_base_config_and_external_config
          { config := ConfigSection.new, env_files := [],
            env := .cons "A" (.Value "0") .nil, env_scripts := [], tasks := [] }
          ExternalConfig.new (some ["A=B=C"]) false).env.lookupVal "A"
        = some (EnvValue.Value "0"))
      ∧ ((merge_base_config_and_external_config
          { config := ConfigSection.new, env_files := [],
            env := .cons "A" (.Value "0") .nil, env_scripts := [], tasks := [] }
          ExternalConfig.new (some ["A=B=C"]) false).env.lookupVal "A"
        ≠ some (EnvValue.Value "B=C")) := by
  refine ⟨rfl, ?_⟩
  intro h
  rw [show (merge_base_config_and_external_config
      { config := ConfigSection.new, env_files := [],
        env := .cons "A" (.Value "0") .nil, env_scripts := [], tasks := [] }
      ExternalConfig.new (some ["A=B=C"]) false).env.lookupVal "A"
      = some (EnvValue.Value "0") from rfl] at h
  have h3 : "0" = "B=C" := EnvValue.Value.inj (Option.some.inj h)
  exact absurd h3 (by decide)

/-- C1 amended: a CLI entry is split on every `=`; only an entry whose
split yields exactly two parts `k`, `v` produces the binding `k ↦ v`, and
that binding is merged last over the baseline/external env via Env Merge
(highest precedence); entries with zero or several `=` (so not exactly two
parts) are silently discarded, leaving the merged env untouched. -/
theorem c1_cli_env_amended :
    (∀ (base_config : Config) (external_config : ExternalConfig) (lm : Bool)
        (entry k v : String),
      splitOnChar '=' entry = [k, v] →
      strStartsWith k "CARGO_MAKE_CURRENT_TASK_" = false →
      (merge_base_config_and_external_config base_config external_config
          (some [entry]) lm).env.lookupVal k = some (EnvValue.Value v))
    ∧ (∀ (base_config : Config) (external_config : ExternalConfig) (lm : Bool)
        (values : List String),
      (∀ entry ∈ values, (splitOnChar '=' entry).length ≠ 2) →
      (merge_base_config_and_external_config base_config external_config
          (some values) lm).env
        = merge_env base_config.env (external_config.env.getD .nil)) := by
  constructor
  · intro base_config external_config lm entry k v hsplit hres
    have hdef : (merge_base_config_and_external_config base_config external_config
        (some [entry]) lm).env
        = merge_env (merge_env base_config.env (external_config.env.getD .nil))
            (.cons k (.Value v) .nil) := by
      simp [merge_base_config_and_external_config, hsplit, EnvMap.insert]
    rw [hdef]
    exact merge_env_lookup_single_value _ k v hres
  · intro base_config external_config lm values hmal
    have hfold : ∀ (vs : List String),
        (∀ entry ∈ vs, (splitOnChar '=' entry).length ≠ 2) →
        vs.foldl (fun cli_env env_pair =>
          match splitOnChar '=' env_pair with
          | [key, value] => cli_env.insert key (EnvValue.Value value)
          | _ => cli_env) EnvMap.nil = EnvMap.nil := by
      intro vs
      induction vs with
      | nil => intro _; rfl
      | cons e rest ih =>
        intro hm
        have he := hm e (by simp)
        have hstep : (match splitOnChar '=' e with
            | [key, value] => EnvMap.nil.insert key (EnvValue.Value value)
            | _ => EnvMap.nil) = EnvMap.nil := by
          rcases hsp : splitOnChar '=' e with _ | ⟨a, _ | ⟨b, _ | _⟩⟩
          · rfl
          · rfl
          · rw [hsp] at he; simp at he
          · rfl
        simp only [List.foldl_cons]
        rw [hstep]
        exact ih (fun e2 he2 => hm e2 (by simp [he2]))
    have hdef : (merge_base_config_and_external_config base_config external_config
        (some values) lm).env
        = merge_env (merge_env base_config.env (external_config.env.getD .nil))
            (values.foldl (fun cli_env env_pair =>
              match splitOnChar '=' env_pair with
              | [key, value] => cli_env.insert key (EnvValue.Value value)
              | _ => cli_env) EnvMap.nil) := rfl
    rw [hdef, hfold values hmal]
    rfl

/-- Witness for C1 amended: `X=3` binds `X` to `3` over baseline and
external definitions of `X`; `NOVALUE` is dropped without error. -/
theorem c1_cli_env_amended_witness :
    ((merge_base_config_and_external_config
        { config := ConfigSection.new, env_files := [],
          env := .cons "X" (.Value "1") .nil, env_scripts := [], tasks := [] }
        { env := some (.cons "X" (.Value "2") .nil) }
        (some ["X=3"]) false).env.lookupVal "X" = some (EnvValue.Value "3"))
      ∧ ((merge_base_config_and_external_config
        { config := ConfigSection.new, env_files := [],
          env := .cons "X" (.Value "1") .nil, env_scripts := [], tasks := [] }
        { env := some (.cons "X" (.Value "2") .nil) }
        (some ["NOVALUE"]) false).env
          = merge_env (.cons "X" (.Value "1") .nil) (.cons "X" (.Value "2") .nil)) :=
  ⟨c1_cli_env_amended.1
      { config := ConfigSection.new, env_files := [],
        env := .cons "X" (.Value "1") .nil, env_scripts := [], tasks := [] }
      { env := some (.cons "X" (.Value "2") .nil) } false "X=3" "X" "3" rfl rfl,
    c1_cli_env_amended.2
      { config := ConfigSection.new, env_files := [],
        env := .cons "X" (.Value "1") .nil, env_scripts := [], tasks := [] }
      { env := some (.cons "X" (.Value "2") .nil) } false ["NOVALUE"]
      (by intro e he; simp at he; subst he; decide)⟩

/-! ### Claim C2: Env Merge ordering -/

/-- Counterexample to C2 as stated: overriding key `B` does not keep its
original position — `swap_remove` moves the last entry `C` into `B`'s slot
and the overridden key is re-appended at the end, giving key order
`A, C, B` instead of `A, B, C`. -/
theorem c2_counterexample :
    ((merge_env
        (.cons "A" (.Value "1") (.cons "B" (.Value "2") (.cons "C" (.Value "3") .nil)))
        (.cons "B" (.Value "9") .nil)).keys = ["A", "C", "B"])
      ∧ ["A", "C", "B"] ≠ ["A", "B", "C"] :=
  ⟨rfl, by decide⟩

/-- C2 amended: Env Merge does not preserve the position of an overridden
key.  Overriding key `k` removes its entry by swapping the map's final
entry into `k`'s slot and re-appends `k` (with the new value) at the end;
a key new in `extended` is appended at the end when it is processed. -/
theorem c2_env_merge_order_amended :
    (∀ (m1 m2 : EnvMap) (k lk : String) (bv lv v : EnvValue),
      strStartsWith k "CARGO_MAKE_CURRENT_TASK_" = false →
      k ∉ m1.keys → k ∉ m2.keys → k ≠ lk →
      (∀ pm pe, bv = EnvValue.Profile pm → v = EnvValue.Profile pe → False) →
      merge_env (m1.append (.cons k bv (m2.append (.cons lk lv .nil))))
          (.cons k v .nil)
        = (m1.append (.cons lk lv m2)).append (.cons k v .nil))
    ∧ (∀ (base : EnvMap) (k : String) (v : EnvValue),
      strStartsWith k "CARGO_MAKE_CURRENT_TASK_" = false →
      base.containsKey k = false →
      merge_env base (.cons k v .nil) = base.append (.cons k v .nil)) := by
  constructor
  · intro m1 m2 k lk bv lv v hres h1 h2 hlk hnp
    have hlook : (m1.append (.cons k bv (m2.append (.cons lk lv .nil)))).lookupVal k
        = some bv := by
      rw [EnvMap.lookupVal_append, EnvMap.lookupVal_eq_none_of_not_mem h1]
      simp [EnvMap.lookupVal]
    have hswap := EnvMap.swapRemove_shape m1 m2 lk bv lv h1
    have hcontains : (m1.append (.cons lk lv m2)).containsKey k = false := by
      simp only [EnvMap.containsKey, EnvMap.lookupVal_append]
      rw [EnvMap.lookupVal_eq_none_of_not_mem h1]
      simp only [EnvMap.lookupVal]
      rw [if_neg (Ne.symm hlk)]
      rw [EnvMap.lookupVal_eq_none_of_not_mem h2]
      rfl
    have hstep : merge_env (m1.append (.cons k bv (m2.append (.cons lk lv .nil))))
        (.cons k v .nil)
        = ((m1.append (.cons k bv (m2.append (.cons lk lv .nil)))).swapRemove k).insert
            k v := by
      cases bv with
      | Value s => simp [merge_env, hres, hlook]
      | Profile pm =>
        cases v with
        | Value s => simp [merge_env, hres, hlook]
        | Profile pe => exact (hnp pm pe rfl rfl).elim
    rw [hstep, hswap, EnvMap.insert_not_contains v hcontains]
  · intro base k v hres hc
    have hlook := EnvMap.lookupVal_of_containsKey_false hc
    have hstep : merge_env base (.cons k v .nil) = base.insert k v := by
      simp [merge_env, hres, hlook]
    rw [hstep, EnvMap.insert_not_contains v hc]

/-- Witness for C2 amended at concrete maps: overriding `B` in `A, B, C`
moves `C` into `B`'s slot and re-appends `B`; inserting the new key `D`
appends it at the end. -/
theorem c2_env_merge_order_amended_witness :
    (merge_env
        ((EnvMap.cons "A" (.Value "1") .nil).append
          (.cons "B" (.Value "2") ((EnvMap.nil).append (.cons "C" (.Value "3") .nil))))
        (.cons "B" (.Value "9") .nil)
      = ((EnvMap.cons "A" (.Value "1") .nil).append
          (.cons "C" (.Value "3") EnvMap.nil)).append (.cons "B" (.Value "9") .nil))
    ∧ (merge_env (.cons "A" (.Value "1") .nil) (.cons "D" (.Value "4") .nil)
      = (EnvMap.cons "A" (.Value "1") .nil).append (.cons "D" (.Value "4") .nil)) :=
  ⟨c2_env_merge_order_amended.1 (.cons "A" (.Value "1") .nil) EnvMap.nil "B" "C"
      (.Value "2") (.Value "3") (.Value "9") (by decide) (by decide) (by decide)
      (by decide) (fun pm pe hcontra _ => EnvValue.noConfusion hcontra),
    c2_env_merge_order_amended.2 (.cons "A" (.Value "1") .nil) "D" (.Value "4")
      (by decide) (by decide)⟩

/-! ### Claim C7: the version gate -/

/-- C7: the gate fails — with exactly the declared minimum version string —
precisely when the raw text parses, `config.min_version` is present as
text, and the comparator reports that version newer than the running tool;
a failed tolerant parse or an absent/non-text `min_version` yields ok; and
a gate failure aborts the whole load of that descriptor as a
`VersionTooOld` typed failure. -/
theorem c7_version_gate :
    (∀ (is_newer_found : String → Bool) (parsed : Option TomlValue) (v : String),
      check_makefile_min_version is_newer_found parsed = Except.error v
        ↔ ∃ t, parsed = some t
            ∧ ((t.get "config").bind (fun config => config.get "min_version")).bind
                TomlValue.as_str = some v
            ∧ is_newer_found v = true)
    ∧ (∀ (ctx : LoadContext) (fuel : Nat) (base_path file_name : String)
        (force set_env : Bool) (source : SourceFile) (v : String),
      lookupVal ctx.fs (joinPath base_path file_name) = some source →
      check_makefile_min_version ctx.is_newer_found source.raw = Except.error v →
      load_external_descriptor ctx (fuel + 1) base_path file_name force set_env
        = Except.error (LoadError.VersionTooOld v)) := by
  constructor
  · intro is_newer_found parsed v
    cases parsed with
    | none =>
      simp only [check_makefile_min_version]
      constructor
      · intro h; exact absurd h (by simp)
      · rintro ⟨t, ht, _, _⟩; cases ht
    | some t =>
      simp only [check_makefile_min_version]
      cases hmv : ((t.get "config").bind (fun config => config.get "min_version")).bind
          TomlValue.as_str with
      | none =>
        constructor
        · intro h; exact absurd h (by simp)
        · rintro ⟨t2, ht2, hext, _⟩
          rw [Option.some.inj ht2] at hmv
          rw [hmv] at hext
          cases hext
      | some mv =>
        by_cases hn : is_newer_found mv
        · simp only [hn, if_true]
          constructor
          · intro h
            have hv : mv = v := Except.error.inj h
            exact ⟨t, rfl, hv ▸ hmv, hv ▸ hn⟩
          · rintro ⟨t2, ht2, hext, _⟩
            rw [Option.some.inj ht2] at hmv
            rw [hmv] at hext
            rw [Option.some.inj hext]
        · simp only [hn, if_false]
          constructor
          · intro h; exact absurd h (by simp)
          · rintro ⟨t2, ht2, hext, hnew⟩
            rw [Option.some.inj ht2] at hmv
            rw [hmv] at hext
            rw [Option.some.inj hext] at hn
            exact absurd hnew hn
  · intro ctx fuel base_path file_name force set_env source v hlookup hgate
    simp [load_external_descriptor, hlookup, hgate]

/-- Witness for C7: a descriptor demanding `99.0.0` under a comparator that
reports it newer fails with `VersionTooOld "99.0.0"` and aborts the load;
the same text with no `min_version` key passes. -/
theorem c7_version_gate_witness :
    (check_makefile_min_version (fun s => s == "99.0.0")
        (some (TomlValue.table [("config",
          TomlValue.table [("min_version", TomlValue.str "99.0.0")])]))
      = Except.error "99.0.0")
      ∧ load_external_descriptor
          { fs := [("./mk.toml",
              { raw := some (TomlValue.table [("config",
                  TomlValue.table [("min_version", TomlValue.str "99.0.0")])]),
                decoded := some ExternalConfig.new })],
            is_newer_found := fun s => s == "99.0.0",
            workspace_makefile := none,
            stable_config := baseTierConfig,
            beta_config := baseTierConfig,
            apply_modify := fun c _ => c } 3 "." "mk.toml" true true
        = Except.error (LoadError.VersionTooOld "99.0.0") := by
  constructor
  · exact (c7_version_gate.1 (fun s => s == "99.0.0")
      (some (TomlValue.table [("config",
        TomlValue.table [("min_version", TomlValue.str "99.0.0")])])) "99.0.0").mpr
      ⟨TomlValue.table [("config",
        TomlValue.table [("min_version", TomlValue.str "99.0.0")])], rfl, rfl, rfl⟩
  · exact c7_version_gate.2
      { fs := [("./mk.toml",
          { raw := some (TomlValue.table [("config",
              TomlValue.table [("min_version", TomlValue.str "99.0.0")])]),
            decoded := some ExternalConfig.new })],
        is_newer_found := fun s => s == "99.0.0",
        workspace_makefile := none,
        stable_config := baseTierConfig,
        beta_config := baseTierConfig,
        apply_modify := fun c _ => c } 2 "." "mk.toml" true true
      { raw := some (TomlValue.table [("config",
          TomlValue.table [("min_version", TomlValue.str "99.0.0")])]),
        decoded := some ExternalConfig.new } "99.0.0" rfl rfl

/-! ### Claim C8: location stamping -/

theorem add_file_location_info_env_files (ec : ExternalConfig) (fp : String) :
    (add_file_location_info ec fp).env_files
      = ec.env_files.map (fun l => l.map (fun ef =>
          match ef with
          | EnvFile.Path p =>
            EnvFile.Info { path := p, base_path := some (parentDir fp) }
          | EnvFile.Info info =>
            if info.base_path.isNone then
              EnvFile.Info { info with base_path := some (parentDir fp) }
            else EnvFile.Info info)) := by
  obtain ⟨ext, cfgs, envf, env, scr, tks⟩ := ec
  unfold add_file_location_info
  cases envf <;> cases tks <;> rfl

theorem add_file_location_info_tasks (ec : ExternalConfig) (fp : String) :
    (add_file_location_info ec fp).tasks
      = ec.tasks.map (fun tl => tl.foldl (fun tasks_map kv =>
          mapInsert tasks_map kv.1
            { kv.2 with env := some (((kv.2.env.getD .nil).insert
                "CARGO_MAKE_CURRENT_TASK_INITIAL_MAKEFILE" (EnvValue.Value fp)).insert
                "CARGO_MAKE_CURRENT_TASK_INITIAL_MAKEFILE_DIRECTORY"
                (EnvValue.Value (parentDir fp)))
            }) []) := by
  obtain ⟨ext, cfgs, envf, env, scr, tks⟩ := ec
  unfold add_file_location_info
  cases envf <;> cases tks <;> rfl

theorem zip_map_mem {α β : Type} (f : α → β) (l : List α) :
    ∀ pr ∈ l.zip (l.map f), pr.2 = f pr.1 := by
  induction l with
  | nil => intro pr hpr; simp at hpr
  | cons a tl ih =>
    intro pr hpr
    simp only [List.map_cons, List.zip_cons_cons, List.mem_cons] at hpr
    rcases hpr with h | h
    · rw [h]
    · exact ih pr h

/-- C8: after location stamping, every env-file entry is a resolved record
carrying a `base_directory` (bare paths receive the descriptor's directory;
resolved records keep an existing one and only receive the computed one
when missing), and every task's env — created if absent — binds the two
reserved marker names to the absolute file path and its parent directory. -/
theorem c8_location_stamping (external_config : ExternalConfig) (file_path_string : String) :
    (((add_file_location_info external_config file_path_string).env_files.getD []).length
        = (external_config.env_files.getD []).length)
      ∧ (∀ pr ∈ (external_config.env_files.getD []).zip
            ((add_file_location_info external_config file_path_string).env_files.getD []),
          pr.2 = match pr.1 with
            | EnvFile.Path p =>
              EnvFile.Info { path := p, base_path := some (parentDir file_path_string) }
            | EnvFile.Info info =>
              EnvFile.Info
                { path := info.path,
                  base_path := some (info.base_path.getD (parentDir file_path_string)) })
      ∧ (∀ kv ∈ (add_file_location_info external_config file_path_string).tasks.getD [],
          kv.2.env.isSome = true
            ∧ (kv.2.env.getD .nil).lookupVal "CARGO_MAKE_CURRENT_TASK_INITIAL_MAKEFILE"
                = some (EnvValue.Value file_path_string)
            ∧ (kv.2.env.getD .nil).lookupVal
                  "CARGO_MAKE_CURRENT_TASK_INITIAL_MAKEFILE_DIRECTORY"
                = some (EnvValue.Value (parentDir file_path_string))) := by
  refine ⟨?_, ?_, ?_⟩
  · rw [add_file_location_info_env_files]
    cases external_config.env_files <;> simp
  · intro pr hpr
    rw [add_file_location_info_env_files] at hpr
    cases hef : external_config.env_files with
    | none => rw [hef] at hpr; simp at hpr
    | some l =>
      rw [hef] at hpr
      simp only [Option.map_some, Option.getD_some] at hpr
      have := zip_map_mem _ l pr hpr
      rw [this]
      cases hpr1 : pr.1 with
      | Path p => rfl
      | Info info =>
        cases hbp : info.base_path with
        | none => simp [hbp]
        | some b =>
          simp [hbp]
          rw [← hbp]
  · intro kv hkv
    rw [add_file_location_info_tasks] at hkv
    cases het : external_config.tasks with
    | none => rw [het] at hkv; simp at hkv
    | some tl =>
      rw [het] at hkv
      simp only [Option.map_some, Option.getD_some] at hkv
      rcases mem_foldl_mapInsert _ tl [] kv hkv with habs | ⟨kv0, _, hkv2⟩
      · simp at habs
      · rw [hkv2]
        refine ⟨rfl, ?_, ?_⟩
        · simp only [Option.getD_some]
          rw [EnvMap.lookupVal_insert_ne _ (EnvValue.Value (parentDir file_path_string))
            (by decide)]
          exact EnvMap.lookupVal_insert_self _ _ _
        · simp only [Option.getD_some]
          exact EnvMap.lookupVal_insert_self _ _ _

/-- Witness for C8 at a concrete descriptor: one bare env-file path (which
receives the directory `/w`), one resolved record (which keeps `/keep`),
and one env-less task (which receives the two markers). -/
theorem c8_location_stamping_witness :
    ((add_file_location_info
        { env_files := some [EnvFile.Path "vars.env",
            EnvFile.Info { path := "o.env", base_path := some "/keep" }],
          tasks := some [("t", { command := some "echo" })] }
        "/w/mk.toml").env_files.getD []).length = 2
      ∧ (EnvFile.Info { path := "o.env", base_path := some "/keep" } : EnvFile)
          = EnvFile.Info
              { path := "o.env",
                base_path := some ((some "/keep").getD (parentDir "/w/mk.toml")) }
      ∧ ((({ command := some "echo",
             env := some (.cons "CARGO_MAKE_CURRENT_TASK_INITIAL_MAKEFILE"
               (.Value "/w/mk.toml")
               (.cons "CARGO_MAKE_CURRENT_TASK_INITIAL_MAKEFILE_DIRECTORY"
                 (.Value "/w") .nil)) } : Task).env.getD .nil).lookupVal
            "CARGO_MAKE_CURRENT_TASK_INITIAL_MAKEFILE"
          = some (EnvValue.Value "/w/mk.toml")) := by
  refine ⟨?_, ?_, ?_⟩
  · exact (c8_location_stamping
      { env_files := some [EnvFile.Path "vars.env",
          EnvFile.Info { path := "o.env", base_path := some "/keep" }],
        tasks := some [("t", { command := some "echo" })] } "/w/mk.toml").1.trans
      (by decide)
  · exact (c8_location_stamping
      { env_files := some [EnvFile.Path "vars.env",
          EnvFile.Info { path := "o.env", base_path := some "/keep" }],
        tasks := some [("t", { command := some "echo" })] } "/w/mk.toml").2.1
      (EnvFile.Info { path := "o.env", base_path := some "/keep" },
        EnvFile.Info { path := "o.env", base_path := some "/keep" })
      (by decide)
  · exact ((c8_location_stamping
      { env_files := some [EnvFile.Path "vars.env",
          EnvFile.Info { path := "o.env", base_path := some "/keep" }],
        tasks := some [("t", { command := some "echo" })] } "/w/mk.toml").2.2
      ("t", { command := some "echo",
              env := some (.cons "CARGO_MAKE_CURRENT_TASK_INITIAL_MAKEFILE"
                (.Value "/w/mk.toml")
                (.cons "CARGO_MAKE_CURRENT_TASK_INITIAL_MAKEFILE_DIRECTORY"
                  (.Value "/w") .nil)) })
      (List.mem_cons_self _ _)).2.1

/-! ### Claim C5: ordered-list extends fold -/

/-- C5: an ordered-list `extend` is resolved left-to-right and folded
through the Config Combinator with each entry as the higher-precedence
operand: when entries `A` and `B` both define task `x`, the composite's `x`
is `B`'s fields merged over `A`'s at field granularity — `A`'s fields
survive wherever `B` leaves them unset — not a whole-object replacement. -/
theorem c5_ordered_list_extend (ctx : LoadContext) (fuel : Nat) (parent_path : String)
    (oa ob : ExtendOptions) (ca cb : ExternalConfig) (tA tB : List (String × Task))
    (x : String) (XA XB : Task)
    (ha : load_external_descriptor ctx (fuel + 1) parent_path oa.path
      (!(oa.optional.getD false)) false = Except.ok ca)
    (hb : load_external_descriptor ctx fuel parent_path ob.path
      (!(ob.optional.getD false)) false = Except.ok cb)
    (hta : ca.tasks = some tA) (htb : cb.tasks = some tB)
    (hnda : (tA.map Prod.fst).Nodup) (hndb : (tB.map Prod.fst).Nodup)
    (hxa : lookupVal tA x = some XA) (hxb : lookupVal tB x = some XB) :
    ∃ composite,
      load_descriptor_extended_makefiles ctx (fuel + 3) parent_path
          (Extend.List [oa, ob]) = Except.ok composite
        ∧ ∃ tasks, composite.tasks = some tasks
        ∧ lookupVal tasks x = some (XA.extend XB)
        ∧ (XB.command = none → (XA.extend XB).command = XA.command)
        ∧ (XB.env = none → (XA.extend XB).env = XA.env) := by
  have hstep1 : load_descriptor_extended_makefiles ctx (fuel + 3) parent_path
      (Extend.List [oa, ob])
      = resolve_extend_list ctx (fuel + 2) parent_path [oa, ob] ExternalConfig.new := rfl
  have hstep2 : resolve_extend_list ctx (fuel + 2) parent_path [oa, ob] ExternalConfig.new
      = resolve_extend_list ctx (fuel + 1) parent_path [ob]
          (merge_external_configs ca ExternalConfig.new) := by
    simp [resolve_extend_list, ha]
  have hstep3 : resolve_extend_list ctx (fuel + 1) parent_path [ob]
        (merge_external_configs ca ExternalConfig.new)
      = resolve_extend_list ctx fuel parent_path []
          (merge_external_configs cb (merge_external_configs ca ExternalConfig.new)) := by
    simp [resolve_extend_list, hb]
  have hstep4 : resolve_extend_list ctx fuel parent_path []
      (merge_external_configs cb (merge_external_configs ca ExternalConfig.new))
      = Except.ok (merge_external_configs cb
          (merge_external_configs ca ExternalConfig.new)) := by
    cases fuel <;> rfl
  refine ⟨merge_external_configs cb (merge_external_configs ca ExternalConfig.new),
    by rw [hstep1, hstep2, hstep3, hstep4], ?_⟩
  have hacc1 : (merge_external_configs ca ExternalConfig.new).tasks
      = some (merge_tasks [] (ca.tasks.getD []) false) := rfl
  have hacc1tasks : (merge_external_configs ca ExternalConfig.new).tasks = some tA := by
    rw [hacc1, hta]
    simp only [Option.getD_some]
    rw [merge_tasks_nil_base tA false hnda]
  have hacc2 : (merge_external_configs cb
        (merge_external_configs ca ExternalConfig.new)).tasks
      = some (merge_tasks
          ((merge_external_configs ca ExternalConfig.new).tasks.getD [])
          (cb.tasks.getD []) false) := rfl
  refine ⟨merge_tasks tA tB false, ?_, ?_, ?_, ?_⟩
  · rw [hacc2, hacc1tasks, htb]
    rfl
  · rw [lookupVal_merge_tasks tA tB false hndb hxb, hxa]
    have hpair : mergeTaskPair XA XB false = XA.extend XB := by
      unfold mergeTaskPair
      rw [task_extend_of_new]
      simp
    exact congrArg some hpair
  · intro h; simp [Task.extend, h, pickOpt]
  · intro h; simp [Task.extend, h, pickOpt]

/-- Witness for C5: in the composite of the concrete two-entry list, `x`
is `b.toml`'s task merged over `a.toml`'s at field granularity; `a.toml`'s
`args` survives in the merged task. -/
theorem c5_ordered_list_extend_witness :
    lookupVal
        ((((load_descriptor_extended_makefiles c5Ctx 4 "/w"
            (Extend.List [{ path := "a.toml" }, { path := "b.toml" }])).toOption.getD
          ExternalConfig.new).tasks).getD []) "x"
        = some (c5StampedA.extend c5StampedB)
      ∧ (c5StampedA.extend c5StampedB).args = some ["1"] := by
  obtain ⟨composite, hcomp, tasks, htasks, hlook, -, -⟩ :=
    c5_ordered_list_extend c5Ctx 1 "/w" { path := "a.toml" } { path := "b.toml" }
      (add_file_location_info c5CfgA "/w/a.toml")
      (add_file_location_info c5CfgB "/w/b.toml")
      [("x", c5StampedA)] [("x", c5StampedB)]
      "x" c5StampedA c5StampedB rfl rfl rfl rfl (by decide) (by decide) rfl rfl
  constructor
  · rw [hcomp]
    simp only [Except.toOption, Option.getD_some, htasks]
    exact hlook
  · rfl

/-! ### Claim C6: chain resolver on an absent ancestor -/

theorem add_file_location_info_extend (ec : ExternalConfig) (fp : String) :
    (add_file_location_info ec fp).extend = ec.extend := by
  obtain ⟨ext, cfgs, envf, env, scr, tks⟩ := ec
  unfold add_file_location_info
  cases envf <;> cases tks <;> rfl

/-- Counterexample to C6 as stated: with `extend = {path: "missing.toml",
optional: true}` and the ancestor absent, the resolver does not return the
current file's own (stamped) config unmodified — the Config Combinator
still runs against the empty ancestor, clearing `extend` and materialising
the absent sections. -/
theorem c6_counterexample :
    load_external_descriptor c6Ctx 3 "." "mk.toml" false true
      ≠ Except.ok (add_file_location_info c6Cfg (joinPath "." "mk.toml")) := by
  intro h
  have h2 := congrArg
    (fun r => match r with
      | Except.ok c => c.extend.isSome
      | Except.error _ => true) h
  exact absurd h2 (by decide)

/-- C6 amended: a chain-resolver call on an absent (or non-regular) path
fails with `DescriptorMissing` when forced and yields an empty `RawConfig`
otherwise; consequently a descriptor extending `{path, optional: true}`
with the ancestor absent resolves to its own stamped config combined with
an empty ancestor through the Config Combinator — the ancestor contributes
nothing, but `extend` is cleared and absent sections become
present-but-empty — while `optional: false` fails with
`DescriptorMissing`. -/
theorem c6_chain_resolver_missing_amended :
    (∀ (ctx : LoadContext) (fuel : Nat) (base_path file_name : String) (set_env : Bool),
      lookupVal ctx.fs (joinPath base_path file_name) = none →
        load_external_descriptor ctx (fuel + 1) base_path file_name true set_env
            = Except.error (LoadError.DescriptorMissing (joinPath base_path file_name))
          ∧ load_external_descriptor ctx (fuel + 1) base_path file_name false set_env
            = Except.ok ExternalConfig.new)
    ∧ (∀ (ctx : LoadContext) (fuel : Nat) (base_path file_name q : String)
        (force set_env : Bool) (source : SourceFile) (decoded : ExternalConfig),
      lookupVal ctx.fs (joinPath base_path file_name) = some source →
      check_makefile_min_version ctx.is_newer_found source.raw = Except.ok () →
      source.decoded = some decoded →
      decoded.extend = some (Extend.Options { path := q, optional := some true }) →
      lookupVal ctx.fs (joinPath (parentDir (joinPath base_path file_name)) q) = none →
      load_external_descriptor ctx (fuel + 3) base_path file_name force set_env
        = Except.ok (merge_external_configs
            (add_file_location_info decoded (joinPath base_path file_name))
            ExternalConfig.new))
    ∧ (∀ (ctx : LoadContext) (fuel : Nat) (base_path file_name q : String)
        (force set_env : Bool) (source : SourceFile) (decoded : ExternalConfig),
      lookupVal ctx.fs (joinPath base_path file_name) = some source →
      check_makefile_min_version ctx.is_newer_found source.raw = Except.ok () →
      source.decoded = some decoded →
      decoded.extend = some (Extend.Options { path := q, optional := some false }) →
      lookupVal ctx.fs (joinPath (parentDir (joinPath base_path file_name)) q) = none →
      load_external_descriptor ctx (fuel + 3) base_path file_name force set_env
        = Except.error (LoadError.DescriptorMissing
            (joinPath (parentDir (joinPath base_path file_name)) q))) := by
  refine ⟨?_, ?_, ?_⟩
  · intro ctx fuel base_path file_name set_env hmiss
    constructor
    · simp [load_external_descriptor, hmiss]
    · simp [load_external_descriptor, hmiss]
  · intro ctx fuel base_path file_name q force set_env source decoded hlook hgate hdec hext hmiss
    have hstamp : (add_file_location_info decoded (joinPath base_path file_name)).extend
        = some (Extend.Options { path := q, optional := some true }) := by
      rw [add_file_location_info_extend]; exact hext
    simp [load_external_descriptor, hlook, hgate, hdec, hstamp,
      load_descriptor_extended_makefiles, hmiss]
  · intro ctx fuel base_path file_name q force set_env source decoded hlook hgate hdec hext hmiss
    have hstamp : (add_file_location_info decoded (joinPath base_path file_name)).extend
        = some (Extend.Options { path := q, optional := some false }) := by
      rw [add_file_location_info_extend]; exact hext
    simp [load_external_descriptor, hlook, hgate, hdec, hstamp,
      load_descriptor_extended_makefiles, hmiss]

/-- Witness for C6 amended: the forced and unforced missing-file behavior,
and the optional-absent-ancestor composite at the concrete descriptor of
the counterexample. -/
theorem c6_chain_resolver_missing_amended_witness :
    (load_external_descriptor c6Ctx 2 "." "absent.toml" true true
        = Except.error (LoadError.DescriptorMissing (joinPath "." "absent.toml")))
      ∧ (load_external_descriptor c6Ctx 2 "." "absent.toml" false true
        = Except.ok ExternalConfig.new)
      ∧ (load_external_descriptor c6Ctx 3 "." "mk.toml" false true
        = Except.ok (merge_external_configs
            (add_file_location_info c6Cfg (joinPath "." "mk.toml"))
            ExternalConfig.new)) :=
  ⟨(c6_chain_resolver_missing_amended.1 c6Ctx 1 "." "absent.toml" true rfl).1,
    (c6_chain_resolver_missing_amended.1 c6Ctx 1 "." "absent.toml" true rfl).2,
    c6_chain_resolver_missing_amended.2.1 c6Ctx 0 "." "mk.toml" "missing.toml"
      false true { decoded := some c6Cfg } c6Cfg rfl rfl rfl rfl rfl⟩

/-! ### Claim C3: skip_core_tasks short-circuit -/

/-- C3: when the phase-1 resolved config section has `skip_core_tasks`
set, the baseline tiers contribute nothing — `load` returns exactly the
external/workspace composite (its sections defaulted where absent), with no
baseline tasks, env, or config-section values merged in.  The phase-1 pass
runs against the empty base tier (see `baseTierConfig`), so under a
reserved-prefix-free, duplicate-free external env and no CLI overrides the
result is the composite alone. -/
theorem c3_skip_core_tasks (ctx : LoadContext) (fuel : Nat) (file_name : String)
    (force experimental : Bool) (e : ExternalConfig)
    (h1 : resolve_external ctx fuel file_name force = Except.ok e)
    (h2 : (e.config.getD ConfigSection.new).skip_core_tasks = some true)
    (h3 : (e.env.getD .nil).keys.Nodup)
    (h4 : ∀ k ∈ (e.env.getD .nil).keys,
      strStartsWith k "CARGO_MAKE_CURRENT_TASK_" = false)
    (h5 : ((e.tasks.getD []).map Prod.fst).Nodup) :
    load ctx fuel file_name force none experimental
      = Except.ok
          { config := e.config.getD ConfigSection.new,
            env_files := e.env_files.getD [],
            env := e.env.getD .nil,
            env_scripts := e.env_scripts.getD [],
            tasks := e.tasks.getD [] } := by
  have henv : merge_env baseTierConfig.env (e.env.getD .nil) = e.env.getD .nil := by
    have hdisj := merge_env_disjoint (e.env.getD .nil) EnvMap.nil
      (fun k hk => ⟨rfl, h4 k hk⟩) h3
    exact hdisj
  have htasks : merge_tasks baseTierConfig.tasks (e.tasks.getD []) false
      = e.tasks.getD [] := merge_tasks_nil_base (e.tasks.getD []) false h5
  have hconfig : baseTierConfig.config.extend (e.config.getD ConfigSection.new)
      = e.config.getD ConfigSection.new := config_section_extend_of_new _
  have hmerge : merge_base_config_and_external_config baseTierConfig e none false
      = { config := e.config.getD ConfigSection.new,
          env_files := e.env_files.getD [],
          env := e.env.getD .nil,
          env_scripts := e.env_scripts.getD [],
          tasks := e.tasks.getD [] } := by
    unfold merge_base_config_and_external_config
    simp only []
    rw [henv, htasks, hconfig]
  have hphase : load_descriptors ctx fuel file_name force none false false none
      = Except.ok (merge_base_config_and_external_config baseTierConfig e none false) := by
    unfold load_descriptors
    rw [h1]
    rfl
  have hskip : (merge_base_config_and_external_config baseTierConfig e none
      false).config.skip_core_tasks = some true := by
    rw [hmerge]
    exact h2
  unfold load
  rw [hphase]
  simp [hskip, hmerge]
  intro hcontra
  rw [h2] at hcontra
  simp at hcontra

/-- Witness for C3: the full two-pass `load` on the concrete context
returns the external composite alone. -/
theorem c3_skip_core_tasks_witness :
    load c3Ctx 2 "mk.toml" true none false
      = Except.ok
          { config := c3Stamped.config.getD ConfigSection.new,
            env_files := c3Stamped.env_files.getD [],
            env := c3Stamped.env.getD .nil,
            env_scripts := c3Stamped.env_scripts.getD [],
            tasks := c3Stamped.tasks.getD [] } :=
  c3_skip_core_tasks c3Ctx 2 "mk.toml" true false c3Stamped rfl rfl
    (by decide) (by decide) (by decide)

end CargoMake
